import Mathlib

/-!
Verification of the arithmetic-expression engine in `src/parser` (lex.rs,
ast.rs, mod.rs) against its natural-language specification.

Shallow embedding conventions:
* `f64` values are modelled as `ℚ`. Every numeric computation exercised by the
  claims below is exact in IEEE-754 double precision (small integers), so the
  idealization is faithful on the inputs the theorems evaluate. ℚ division by
  zero yields 0 where IEEE yields ±inf/NaN; no claim divides by zero.
* `f64::powf` is modelled on the integer-exponent domain (`powf`), the only
  domain the claims exercise; there it agrees with IEEE pow on exact inputs.
* Rust `Vec` becomes `List` (push = append at the tail), `Option`/`Result`
  become `Option`/`Except`, `usize` subtraction goes through `checked_sub`
  exactly as in the source.
* The recursion of `lex_ind` into parenthesized groups (via
  `ParenthesesBuilder::into_token`) is structural in Rust only because the
  inner string is shorter; here it is driven by a `fuel` counter. Each
  recursive call consumes at least two characters of the current string, so
  the entry point `lex` supplies `s.length + 1` fuel, which can never run
  out; the fuel-exhaustion branch is unreachable from `lex`.
* `Char.isWhitespace` models Rust's `char::is_whitespace` (they agree on
  ASCII whitespace; no claim involves the exotic Unicode whitespace on
  which the two differ), and `Char.isDigit` models `char::is_digit(10)`.
* The `DEFAULT_VARS` environment of mod.rs contains transcendental constants
  and functions (`pi`, `sin`, …) that have no exact ℚ model; therefore the
  pipeline is parameterized by an arbitrary environment `VarMap` and the
  end-to-end theorems quantify over it (the inputs they evaluate never
  consult the environment, or use an explicitly constructed one).
-/

namespace Calculator

/-- `OperatorPrecedence` from lex.rs (`simple_enum!`), declaration order
`PlusMinus, MultDiv, Exp`. -/
inductive OperatorPrecedence where
  | PlusMinus
  | MultDiv
  | Exp
deriving DecidableEq, Repr

/-- `OperatorPrecedence::VALUES` generated by the `simple_enum!` macro:
the variants in declaration order. -/
def OperatorPrecedence.VALUES : List OperatorPrecedence := [.PlusMinus, .MultDiv, .Exp]

/-- `Operator` from lex.rs. -/
inductive Operator where
  | Exp
  | Mult
  | Div
  | Plus
  | Minus
deriving DecidableEq, Repr

/-- `Operator::precedence` from lex.rs. -/
def Operator.precedence : Operator → OperatorPrecedence
  | .Exp => .Exp
  | .Mult | .Div => .MultDiv
  | .Plus | .Minus => .PlusMinus

/-- `Operator::from_char` from lex.rs. -/
def Operator.from_char (c : Char) : Option Operator :=
  if c = '^' then some .Exp
  else if c = '*' then some .Mult
  else if c = '/' then some .Div
  else if c = '+' then some .Plus
  else if c = '-' then some .Minus
  else none

/-- `Operator::is_operator` from lex.rs. -/
def Operator.is_operator (c : Char) : Bool :=
  (Operator.from_char c).isSome

/-- Model of `f64::powf` on the domain the program exercises: for an integer
exponent it is the exact power (as IEEE pow is on exact small inputs); for a
non-integer exponent the model returns 0 (no claim evaluates that case). -/
def powf (l r : ℚ) : ℚ :=
  if r.den = 1 then l ^ r.num else 0

/-- `Operator::apply` from lex.rs. -/
def Operator.apply (op : Operator) (left right : ℚ) : ℚ :=
  match op with
  | .Exp => powf left right
  | .Mult => left * right
  | .Div => left / right
  | .Plus => left + right
  | .Minus => left - right

/-- `Token` from lex.rs. `Number` carries the ℚ model of the `f64`. -/
inductive Token where
  | Number (n : ℚ)
  | Op (op : Operator)
  | Var (ident : String)
  | Parentheses (inner : List Token)
  | Negation

/-- `Token::is_op` from lex.rs. -/
def Token.is_op : Token → Bool
  | .Op _ => true
  | _ => false

/-- `Token::is_neg` from lex.rs. -/
def Token.is_neg : Token → Bool
  | .Negation => true
  | _ => false

/-- `Token::is_num` from lex.rs. -/
def Token.is_num : Token → Bool
  | .Number _ => true
  | _ => false

/-- `LexError` from lex.rs. -/
inductive LexError where
  | UnexpectedEOF
  | EmptyParentheses
  | UnexpectedCharacter (character : Char) (position : Nat)
deriving DecidableEq, Repr

/-- `LexError::is_eof` from lex.rs. -/
def LexError.is_eof : LexError → Bool
  | .UnexpectedEOF => true
  | _ => false

/-- `usize::checked_sub`. -/
def checked_sub (a b : Nat) : Option Nat :=
  if b ≤ a then some (a - b) else none

/-- `char::is_ascii_lowercase(c) || c == '_'`, the `VariableBuilder` condition
from lex.rs. -/
def isLowerOrUnderscore (c : Char) : Bool :=
  ('a' ≤ c && c ≤ 'z') || c = '_'

/-- The closed world of `TokenBuilder` implementations from lex.rs
(`OperatorBuilder`, `NegationBuilder`, `NumberBuilder` with its three
segment strings and active index, `ParenthesesBuilder`, `VariableBuilder`). -/
inductive Builder where
  | OperatorB (inner : Option Operator)
  | NegationB (complete : Bool)
  | NumberB (p0 p1 p2 : List Char) (ind : Nat)
  | ParenB (inner : List Char) (level : Nat) (complete : Bool) (start : Nat)
  | VariableB (inner : List Char)

/-- `self.parts[self.ind]` of `NumberBuilder` (the index is only ever 0, 1
or 2 in the source; anything ≥ 2 selects the exponent segment). -/
def partAt (p0 p1 p2 : List Char) (i : Nat) : List Char :=
  if i = 0 then p0 else if i = 1 then p1 else p2

/-- The `TokenBuilder::can_insert` implementations from lex.rs, one arm per
builder. -/
def Builder.can_insert : Builder → Char → Bool
  | .OperatorB inner, c => inner.isNone && Operator.is_operator c
  | .NegationB complete, c => !complete && c = '-'
  | .NumberB p0 p1 p2 ind, c =>
      c.isDigit
        || (c = '-' && ind = 2 && (partAt p0 p1 p2 ind).isEmpty)
        || (c = '+' && ind = 2 && (partAt p0 p1 p2 ind).isEmpty)
        || (c = '.' && ind = 0 && !(partAt p0 p1 p2 ind).isEmpty)
        || (c = 'E' && ind < 2 && 0 < ((partAt p0 p1 p2 ind).filter Char.isDigit).length)
  | .ParenB _ level complete _, c => !complete && (c ≠ ')' || 0 < level)
  | .VariableB _, c => isLowerOrUnderscore c

/-- The `TokenBuilder::push` implementations from lex.rs; `none` models
`Err(())`. The `ParenthesesBuilder` arm follows the source order: on `)`
first `checked_sub` the nesting level, then push the character when the
level is still positive, then increment on `(`, then set `complete`. -/
def Builder.push : Builder → Char → Option Builder
  | .OperatorB inner, c =>
      match Operator.from_char c, inner with
      | some op, none => some (.OperatorB (some op))
      | _, _ => none
  | .NegationB complete, c =>
      if !complete && c = '-' then some (.NegationB true) else none
  | .NumberB p0 p1 p2 ind, c =>
      if c.isDigit then
        some (if ind = 0 then .NumberB (p0 ++ [c]) p1 p2 ind
              else if ind = 1 then .NumberB p0 (p1 ++ [c]) p2 ind
              else .NumberB p0 p1 (p2 ++ [c]) ind)
      else if c = '-' && ind = 2 && (partAt p0 p1 p2 ind).isEmpty then
        some (.NumberB p0 p1 (p2 ++ [c]) ind)
      else if c = '+' && ind = 2 && (partAt p0 p1 p2 ind).isEmpty then
        some (.NumberB p0 p1 (p2 ++ [c]) ind)
      else if c = '.' && ind = 0 && !(partAt p0 p1 p2 ind).isEmpty then
        some (.NumberB p0 p1 p2 (ind + 1))
      else if c = 'E' && ind < 2 && 0 < ((partAt p0 p1 p2 ind).filter Char.isDigit).length then
        some (.NumberB p0 p1 p2 2)
      else none
  | .ParenB inner level complete start, c =>
      if (c = '(' || c = ')') && !complete then
        match (if c = ')' then checked_sub level 1 else some level) with
        | none => none
        | some lv =>
          let inner' := if 0 < lv then inner ++ [c] else inner
          let lv' := if c = '(' then lv + 1 else lv
          some (.ParenB inner' lv' (lv' = 0) start)
      else if !complete then some (.ParenB (inner ++ [c]) level complete start)
      else none
  | .VariableB inner, c =>
      if isLowerOrUnderscore c then some (.VariableB (inner ++ [c])) else none

/-- Longest digit prefix of a character list, with the remainder. -/
def takeDigits : List Char → List Char × List Char
  | c :: cs =>
      if c.isDigit then
        let r := takeDigits cs
        (c :: r.1, r.2)
      else ([], c :: cs)
  | [] => ([], [])

/-- Numeric value of a digit string. -/
def digitsVal (ds : List Char) : Nat :=
  ds.foldl (fun acc c => acc * 10 + (c.toNat - '0'.toNat)) 0

/-- Exponent suffix of the `f64` decimal grammar: empty, or `e`/`E`, an
optional sign, and at least one digit consuming the whole remainder. -/
def parseExpPart : List Char → Option Int
  | [] => some 0
  | e :: r =>
      if e = 'e' || e = 'E' then
        let sr : Int × List Char :=
          match r with
          | [] => (1, [])
          | c :: r' => if c = '+' then (1, r') else if c = '-' then (-1, r') else (1, c :: r')
        let dr := takeDigits sr.2
        if dr.1.isEmpty || !dr.2.isEmpty then none
        else some (sr.1 * (digitsVal dr.1 : Int))
      else none

/-- Model of Rust `str::parse::<f64>` on the decimal grammar
`[+-]? (Digits ['.' Digits?]? | '.' Digits) [('e'|'E') [+-]? Digits]`,
returning the exact rational value (the `inf`/`nan`/hex forms are not
representable in the strings `NumberBuilder` assembles and are omitted).
A dangling exponent marker or sign (`3E`, `3E-`) is rejected, as Rust's
parser rejects it. -/
def rustParseF64 (s : List Char) : Option ℚ :=
  let ss : ℚ × List Char :=
    match s with
    | [] => (1, [])
    | c :: r => if c = '+' then (1, r) else if c = '-' then (-1, r) else (1, c :: r)
  let dr0 := takeDigits ss.2
  match dr0.2 with
  | '.' :: r1 =>
      let dr1 := takeDigits r1
      if dr0.1.isEmpty && dr1.1.isEmpty then none
      else
        (parseExpPart dr1.2).map fun e =>
          ss.1 * ((digitsVal dr0.1 : ℚ) + (digitsVal dr1.1 : ℚ) / 10 ^ dr1.1.length) * 10 ^ e
  | _ =>
      if dr0.1.isEmpty then none
      else (parseExpPart dr0.2).map fun e => ss.1 * (digitsVal dr0.1 : ℚ) * 10 ^ e

/-- The `last_is_op` test of `lex_ind` (lex.rs): the most recent
non-negation token, if any, is an operator. -/
def lastIsOp (tokens : List Token) : Bool :=
  (((tokens.reverse).dropWhile Token.is_neg).head?.filter Token.is_op).isSome

/-- The `last_is_num` test of `lex_ind` (lex.rs): the most recent token, if
any, is a number. -/
def lastIsNum (tokens : List Token) : Bool :=
  (tokens.getLast?.filter Token.is_num).isSome

/-- The builder-dispatch `match` of `lex_ind` (lex.rs), run when no builder
is pending: whitespace produces nothing; `-` in negation position starts a
`NegationBuilder`; a digit (when the previous token is not a number) starts
a `NumberBuilder`; an operator character (when the previous non-negation
token is not an operator) starts an `OperatorBuilder`; `(` starts a
`ParenthesesBuilder` remembering the current index; a lowercase letter or
`_` starts a `VariableBuilder`; anything else is an `UnexpectedCharacter`
at the current index. -/
def dispatchBuilder (c : Char) (ind : Nat) (tokens : List Token) :
    Except LexError (Option Builder) :=
  if c.isWhitespace then .ok none
  else if c = '-' && (lastIsOp tokens || tokens.isEmpty) && !lastIsNum tokens then
    .ok (some (.NegationB false))
  else if c.isDigit && !lastIsNum tokens then .ok (some (.NumberB [] [] [] 0))
  else if Operator.is_operator c && !lastIsOp tokens then .ok (some (.OperatorB none))
  else if c = '(' then .ok (some (.ParenB [] 0 false ind))
  else if isLowerOrUnderscore c then .ok (some (.VariableB []))
  else .error (.UnexpectedCharacter c ind)

mutual

/-- The `TokenBuilder::into_token` implementations from lex.rs. The
`NumberBuilder` arm rebuilds the `processed_parts` check (a segment may be
empty only if it is not the active one) and the string assembly
`p0 ++ ("." ++ p1 if nonempty) ++ ("E" ++ p2 if nonempty)` fed to
`str::parse::<f64>`; parse failure maps to `UnexpectedEOF`. The
`ParenthesesBuilder` arm recursively lexes the inner text from `start`
(the index of the opening parenthesis) and rewrites an inner
`UnexpectedEOF` to `UnexpectedCharacter {')', inner.len + start + 1}`. -/
def Builder.into_token (fuel : Nat) : Builder → Except LexError Token
  | .OperatorB inner =>
      match inner with
      | some op => .ok (.Op op)
      | none => .error .UnexpectedEOF
  | .NegationB complete =>
      if complete then .ok .Negation else .error .UnexpectedEOF
  | .NumberB p0 p1 p2 ind =>
      if (p0.isEmpty && ind = 0) || (p1.isEmpty && ind = 1) || (p2.isEmpty && ind = 2) then
        .error .UnexpectedEOF
      else
        let assembled :=
          p0 ++ (if p1.isEmpty then [] else '.' :: p1) ++ (if p2.isEmpty then [] else 'E' :: p2)
        match rustParseF64 assembled with
        | some q => .ok (.Number q)
        | none => .error .UnexpectedEOF
  | .ParenB inner _ complete start =>
      if inner.isEmpty then .error .EmptyParentheses
      else if complete then
        match fuel with
        | 0 => .error .UnexpectedEOF
        | f + 1 =>
          match lex_ind f inner start with
          | .ok toks => .ok (.Parentheses toks)
          | .error e =>
              .error (if e.is_eof then .UnexpectedCharacter ')' (inner.length + start + 1) else e)
      else .error .UnexpectedEOF
  | .VariableB inner =>
      if inner.isEmpty then .error .UnexpectedEOF
      else .ok (.Var (String.mk inner))

/-- The body of the `while let Some(c) = chars.next()` loop of `lex_ind`
from lex.rs, one recursive step per character, threading the running index,
the emitted tokens and the pending builder. On loop exit the source rejects
a trailing operator or negation token with `UnexpectedEOF`. -/
def lexLoop (fuel : Nat) : List Char → Nat → List Token → Option Builder →
    Except LexError (List Token)
  | [], _, tokens, _ =>
      if (tokens.getLast?.filter (fun t => t.is_op || t.is_neg)).isSome then
        .error .UnexpectedEOF
      else .ok tokens
  | c :: rest, ind, tokens, pending =>
      let disp : Except LexError (Option Builder) :=
        match pending with
        | some b => .ok (some b)
        | none => dispatchBuilder c ind tokens
      match disp with
      | .error e => .error e
      | .ok none => lexLoop fuel rest (ind + 1) tokens none
      | .ok (some b) =>
        match b.push c with
        | none => .error (.UnexpectedCharacter c ind)
        | some b' =>
          match rest.head? with
          | some ch =>
            if b'.can_insert ch then lexLoop fuel rest (ind + 1) tokens (some b')
            else
              match b'.into_token fuel with
              | .ok tok => lexLoop fuel rest (ind + 1) (tokens ++ [tok]) none
              | .error e =>
                  .error (if e.is_eof then .UnexpectedCharacter ch (ind + 1) else e)
          | none =>
            match b'.into_token fuel with
            | .ok tok => lexLoop fuel rest (ind + 1) (tokens ++ [tok]) none
            | .error e => .error e

/-- `lex_ind` from lex.rs: run the loop on `s` with base index `ind`, no
tokens and no pending builder. -/
def lex_ind (fuel : Nat) (s : List Char) (ind : Nat) : Except LexError (List Token) :=
  lexLoop fuel s ind [] none

end

/-- `lex` from lex.rs: `lex_ind(s, 0)`, with fuel `s.length + 1` (always
sufficient, see the header comment). -/
def lex (s : String) : Except LexError (List Token) :=
  lex_ind (s.length + 1) s.data 0

/-- `AngleMode` from mod.rs. -/
inductive AngleMode where
  | Deg
  | Rad
deriving DecidableEq, Repr

/-- `VariableValue` from mod.rs; the `Function` payload is the ℚ model of the
boxed `Fn(f64, AngleMode) -> f64`. -/
inductive VariableValue where
  | Constant (n : ℚ)
  | Function (f : ℚ → AngleMode → ℚ)

/-- `VarMap` from mod.rs (`HashMap<&str, VariableValue>`), as a lookup
function. -/
def VarMap := String → Option VariableValue

/-- `Expression` from ast.rs. -/
inductive Expression where
  | Binary (op : Operator) (left right : Expression)
  | CallExpresion (arg : Expression) (func : String)
  | Number (n : ℚ)
  | Paren (e : Expression)
  | Negation (e : Expression)
deriving DecidableEq

/-- `Expression::negate` from ast.rs: wrap in `neg` layers of `Negation`. -/
def Expression.negate (e : Expression) : Nat → Expression
  | 0 => e
  | n + 1 => .Negation (Expression.negate e n)

/-- `Expression::non_neg` from ast.rs: strip every outer `Negation` layer,
returning the stripped expression and the number of layers removed. -/
def Expression.non_neg : Expression → Expression × Nat
  | .Negation inner =>
      let r := Expression.non_neg inner
      (r.1, r.2 + 1)
  | .Binary op l r => (.Binary op l r, 0)
  | .CallExpresion a f => (.CallExpresion a f, 0)
  | .Number n => (.Number n, 0)
  | .Paren e => (.Paren e, 0)

/-- `ParseError` from ast.rs. -/
inductive ParseError where
  | UnexpectedEOF
  | UndefinedIdent (ident : String)
  | UnexpectedToken (token : Token)
  | NonFunction (ident : String)

/-- `Operator::get_char` from lex.rs. -/
def Operator.get_char : Operator → Char
  | .Exp => '^'
  | .Mult => '*'
  | .Div => '/'
  | .Plus => '+'
  | .Minus => '-'

/-- `Token::get_descriptor` from lex.rs. The numeric rendering uses ℚ's
`toString` in place of `f64` display; no claim depends on it. -/
def Token.get_descriptor : Token → String
  | .Number n => "number " ++ toString n
  | .Parentheses _ => "parentheses expression"
  | .Var name => "variable " ++ name
  | .Op op => "operator " ++ String.singleton op.get_char
  | .Negation => "token '-'"

/-- `impl From<LexError> for Cow<'static, str>` from lex.rs: the
caller-facing message of a lex error. -/
def lexErrorMessage : LexError → String
  | .UnexpectedEOF => "Incomplete expression"
  | .UnexpectedCharacter c p =>
      "Unexpected character '" ++ String.singleton c ++ "' at index " ++ toString p
  | .EmptyParentheses => "Empty parentheses"

/-- `impl From<ParseError> for Cow<'static, str>` from ast.rs: the
caller-facing message of a parse error. -/
def parseErrorMessage : ParseError → String
  | .UnexpectedEOF => "Unexpected end of file"
  | .UnexpectedToken t => "Unexpected " ++ t.get_descriptor
  | .UndefinedIdent ident => "Undefined variable \"" ++ ident ++ "\""
  | .NonFunction ident => "\"" ++ ident ++ "\" is not a function"

/-- `ContextualizedTokens` from ast.rs. -/
structure ContextualizedTokens where
  expressions : List Expression
  operators : List Operator
deriving DecidableEq

/-- The mutable local state of `ContextualizedTokens::from`: the two output
lists plus `negation_stack`, the pending function name, and the two
last-token flags. -/
structure CtxState where
  expressions : List Expression
  operators : List Operator
  negation_stack : Nat
  func : Option String
  last_paren : Bool
  last_op : Bool
deriving DecidableEq

/-- The initial state of `ContextualizedTokens::from`. -/
def initCtxState : CtxState :=
  { expressions := [], operators := [], negation_stack := 0,
    func := none, last_paren := false, last_op := false }

/-- `ContextualizedTokens::reduce_at` from ast.rs: under the bounds guard,
remove the operator at `ind` and the two expressions at `ind` and `ind + 1`,
fold them into one `Binary` node — for the exponent tier first stripping the
`Negated` layers off the left operand with `non_neg` and re-applying them
around the result with `negate` — and insert it back at `ind`. -/
def reduce_at (s : ContextualizedTokens) (ind : Nat) (is_exp : Bool) : ContextualizedTokens :=
  if ind + 1 < s.expressions.length ∧ ind < s.operators.length then
    match s.operators.get? ind, s.expressions.get? ind, s.expressions.get? (ind + 1) with
    | some op, some left, some right =>
        let expr :=
          if is_exp then
            let ln := left.non_neg
            Expression.negate (.Binary op ln.1 right) ln.2
          else .Binary op left right
        { operators := s.operators.eraseIdx ind,
          expressions := ((s.expressions.eraseIdx ind).eraseIdx ind).insertIdx ind expr }
    | _, _, _ => s
  else s

/-- The positions `i` of `into_ast`'s `(0..operators.len())` range whose
operator has the precedence of the current tier (the `filter` stage of the
`instances` computation in ast.rs). -/
def posList (ops : List Operator) (p : OperatorPrecedence) : List Nat :=
  (List.range ops.length).filter fun i =>
    ((ops.get? i).filter (fun op => op.precedence == p)).isSome

/-- The `instances` list of `into_ast` (ast.rs): enumerate the tier's
positions and shift each one left by its enumeration index via
`checked_sub`, anticipating the in-place removals of the sweep. -/
def instancesFor (ops : List Operator) (p : OperatorPrecedence) : List Nat :=
  (posList ops p).enum.filterMap fun ki => checked_sub ki.2 ki.1

/-- One tier pass of `into_ast` (ast.rs): compute `instances` from the
current operator list, then `reduce_at` each collected index in order,
with the exponent flag set iff the tier is `Exp`. -/
def reduceTier (s : ContextualizedTokens) (p : OperatorPrecedence) : ContextualizedTokens :=
  (instancesFor s.operators p).foldl (fun t i => reduce_at t i (p == OperatorPrecedence.Exp)) s

/-- `ContextualizedTokens::into_ast` from ast.rs: reject unless
`expressions.len() == operators.len() + 1`; process the precedence tiers
highest-to-lowest (`VALUES.iter().rev()`); finally pop the last expression
and accept only if nothing else remains. -/
def ContextualizedTokens.into_ast (s : ContextualizedTokens) : Except ParseError Expression :=
  if s.expressions.length ≠ s.operators.length + 1 then .error .UnexpectedEOF
  else
    let s3 := OperatorPrecedence.VALUES.reverse.foldl reduceTier s
    match s3.expressions.getLast? with
    | some e =>
        if s3.expressions.dropLast.length = 0 && s3.operators.length = 0 then .ok e
        else .error .UnexpectedEOF
    | none => .error .UnexpectedEOF

mutual

/-- The token loop of `ContextualizedTokens::from` (ast.rs), one recursive
step per token. Each source match arm whose guard fails falls through to the
catch-all `UnexpectedToken` arm, which the per-constructor `if` mirrors. The
implicit-multiplication check `expressions.len() != operators.len()`
compares the lengths before the pushes, as in the source. -/
def fromTokensLoop (vars : VarMap) : List Token → CtxState → Except ParseError CtxState
  | [], st => .ok st
  | t :: rest, st =>
    match t with
    | .Number num =>
        if st.func.isNone && (st.last_op || st.last_paren || st.expressions.isEmpty) then
          fromTokensLoop vars rest
            { st with
              operators :=
                if st.expressions.length ≠ st.operators.length then st.operators ++ [.Mult]
                else st.operators,
              expressions := st.expressions ++ [Expression.negate (.Number num) st.negation_stack],
              last_op := false, last_paren := false, negation_stack := 0 }
        else .error (.UnexpectedToken t)
    | .Negation =>
        if st.func.isNone then
          fromTokensLoop vars rest { st with negation_stack := st.negation_stack + 1 }
        else .error (.UnexpectedToken t)
    | .Op op =>
        if st.func.isNone && !st.last_op then
          fromTokensLoop vars rest
            { st with operators := st.operators ++ [op], last_op := true, last_paren := false }
        else .error (.UnexpectedToken t)
    | .Parentheses inner =>
        match ast_gen inner vars with
        | .error e => .error e
        | .ok sub =>
          let ops' :=
            if st.expressions.length ≠ st.operators.length then st.operators ++ [.Mult]
            else st.operators
          match st.func with
          | some f =>
              fromTokensLoop vars rest
                { st with
                  operators := ops',
                  expressions :=
                    st.expressions ++ [Expression.negate (.CallExpresion sub f) st.negation_stack],
                  func := none, negation_stack := 0, last_op := false, last_paren := true }
          | none =>
              fromTokensLoop vars rest
                { st with
                  operators := ops',
                  expressions :=
                    st.expressions ++ [.Paren (Expression.negate sub st.negation_stack)],
                  negation_stack := 0, last_op := false, last_paren := true }
    | .Var ident =>
        if st.func.isNone then
          match vars ident with
          | none => .error (.UndefinedIdent ident)
          | some (.Constant num) =>
              fromTokensLoop vars rest
                { st with
                  operators :=
                    if st.expressions.length ≠ st.operators.length then st.operators ++ [.Mult]
                    else st.operators,
                  expressions := st.expressions ++ [.Number num],
                  last_op := false, last_paren := true }
          | some (.Function _) => fromTokensLoop vars rest { st with func := some ident }
        else .error (.UnexpectedToken t)

/-- `ContextualizedTokens::from` (ast.rs): run the token loop from the
initial state; accept only when
`expressions.len().checked_sub(operators.len()) == Some(1)`, otherwise
`UnexpectedEOF`. (`from` is a Lean keyword, hence the name.) -/
def ContextualizedTokens.fromTokens (vars : VarMap) (arr : List Token) :
    Except ParseError ContextualizedTokens :=
  match fromTokensLoop vars arr initCtxState with
  | .error e => .error e
  | .ok st =>
      if ((checked_sub st.expressions.length st.operators.length).filter (fun d => d == 1)).isSome
      then .ok { expressions := st.expressions, operators := st.operators }
      else .error .UnexpectedEOF

/-- `ast_gen` from ast.rs: contextualize, then reduce to a single tree. -/
def ast_gen (tokens : List Token) (vars : VarMap) : Except ParseError Expression :=
  match ContextualizedTokens.fromTokens vars tokens with
  | .error e => .error e
  | .ok c => c.into_ast

end

/-- `Expression::get_value` from ast.rs: the recursive tree walk, left
operand strictly before the right. -/
def Expression.get_value (e : Expression) (mode : AngleMode) (context : VarMap) :
    Except ParseError ℚ :=
  match e with
  | .Binary op left right =>
      match left.get_value mode context with
      | .error e => .error e
      | .ok l =>
        match right.get_value mode context with
        | .error e => .error e
        | .ok r => .ok (op.apply l r)
  | .Number value => .ok value
  | .Paren exp => exp.get_value mode context
  | .CallExpresion arg func =>
      match context func with
      | some (.Function f) =>
          match arg.get_value mode context with
          | .error e => .error e
          | .ok val => .ok (f val mode)
      | _ => .error (.NonFunction func)
  | .Negation exp =>
      match exp.get_value mode context with
      | .error e => .error e
      | .ok v => .ok (-v)

/-- `eval_math` from mod.rs, parameterized by the environment (the source
fixes `vars := DEFAULT_VARS`, whose transcendental entries are outside the
ℚ embedding; the end-to-end theorems quantify over `vars`): lex, build the
AST, evaluate, converting every error to its caller-facing message. -/
def eval_math (vars : VarMap) (s : String) (mode : AngleMode) : Except String ℚ :=
  match lex s with
  | .error e => .error (lexErrorMessage e)
  | .ok toks =>
    match ast_gen toks vars with
    | .error e => .error (parseErrorMessage e)
    | .ok ast =>
      match ast.get_value mode vars with
      | .ok v => .ok v
      | .error e => .error (parseErrorMessage e)

/-- Helper predicate: the outermost constructor is `Negation`. -/
def Expression.isNegationNode : Expression → Bool
  | .Negation _ => true
  | _ => false

/-- Test environment binding the single name `x` to the constant 5, used to
compare the contextualization of a constant identifier against that of the
corresponding number token. -/
def envX : VarMap :=
  fun s => if s = "x" then some (.Constant 5) else none

/-- Characters of the input `(…(@)…)` with `d` parentheses on each side of
the `@`: the rejected character sits at top-level offset `d`. -/
def nestedAt (d : Nat) : List Char :=
  List.replicate d '(' ++ '@' :: List.replicate d ')'

/-!  Theorems. -/

/-- Stripping `non_neg` after wrapping with `negate` is the identity round
trip on any expression whose outermost constructor is not `Negation`;
shared by several claim proofs. -/
theorem non_neg_negate_aux (e : Expression) (n : Nat) (h : e.isNegationNode = false) :
    (Expression.negate e n).non_neg = (e, n) := by
  induction n with
  | zero =>
      cases e with
      | Negation inner => simp [Expression.isNegationNode] at h
      | _ => rfl
  | succ n ih =>
      simp [Expression.negate, Expression.non_neg, ih]

/-- C9: for every expression `e` whose outermost constructor is not
`Negation` and every `n`, `non_neg (negate e n) = (e, n)`: wrapping in `n`
negation layers and then stripping them recovers both the expression and
the exact count. -/
theorem C9_negate_non_neg (e : Expression) (n : Nat) (h : e.isNegationNode = false) :
    (Expression.negate e n).non_neg = (e, n) := by
  exact non_neg_negate_aux e n h

/-- Witness for C9 at `e = Number 3`, `n = 2`. -/
theorem C9_negate_non_neg_witness :
    (Expression.negate (.Number 3) 2).non_neg = (Expression.Number 3, 2) :=
  C9_negate_non_neg (.Number 3) 2 rfl

/-- C6 (amended): converting `ParseError::UnexpectedEOF` to a message gives
"Unexpected end of file", while `LexError::UnexpectedEOF` gives
"Incomplete expression" — the two messages are not the same. -/
theorem C6_eof_messages :
    parseErrorMessage .UnexpectedEOF = "Unexpected end of file" ∧
      lexErrorMessage .UnexpectedEOF = "Incomplete expression" := by
  exact ⟨rfl, rfl⟩

/-- Counterexample to C6 as stated: the two `UnexpectedEOF` conversions
produce different message strings. -/
theorem C6_counterexample :
    parseErrorMessage .UnexpectedEOF ≠ lexErrorMessage .UnexpectedEOF := by
  decide

/-- C1 (amended): a `Constant` binding is appended like a Number token for
the implicit-multiplication check and contributes `Literal(v)`, but —
unlike a Number token — the accumulated negation depth is neither applied
to the appended literal nor reset (the `negation_stack` field of the
resulting state is untouched), and the last-token flag is set as for a
closing group (`last_paren := true`) rather than for a number. -/
theorem C1_const_binding (vars : VarMap) (st : CtxState) (ident : String) (num : ℚ)
    (rest : List Token) (hv : vars ident = some (.Constant num)) (hf : st.func = none) :
    fromTokensLoop vars (.Var ident :: rest) st =
      fromTokensLoop vars rest
        { st with
          operators :=
            if st.expressions.length ≠ st.operators.length then st.operators ++ [.Mult]
            else st.operators,
          expressions := st.expressions ++ [.Number num],
          last_op := false, last_paren := true } := by
  simp [fromTokensLoop, hf, hv]

/-- Witness for C1's amended theorem at `envX`, a state with pending
negation depth 1: the literal is appended unnegated and the depth 1
survives in the state. -/
theorem C1_const_binding_witness :
    fromTokensLoop envX [.Var "x"] { initCtxState with negation_stack := 1 } =
      fromTokensLoop envX []
        { initCtxState with
          negation_stack := 1, expressions := [.Number 5], last_paren := true } := by
  have h := C1_const_binding envX { initCtxState with negation_stack := 1 } "x" 5 []
    (by rfl) (by rfl)
  simpa [initCtxState] using h

/-- Counterexample to C1 as stated: on the token sequence `[-, x]` where
`x` is bound to the constant 5, contextualization produces the bare
literal 5 (the pending negation is dropped), while on `[-, 5]` — the
Number-token counterpart the claim equates it with — it produces the
negated literal. -/
theorem C1_counterexample :
    ContextualizedTokens.fromTokens envX [.Negation, .Var "x"] =
        .ok { expressions := [.Number 5], operators := [] } ∧
      ContextualizedTokens.fromTokens envX [.Negation, .Number 5] =
        .ok { expressions := [.Negation (.Number 5)], operators := [] } ∧
      (Expression.Number 5 : Expression) ≠ .Negation (.Number 5) := by
  refine ⟨?_, ?_, by decide⟩ <;>
    simp +decide [ContextualizedTokens.fromTokens, fromTokensLoop, initCtxState, envX,
      checked_sub, Expression.negate]

/-- Single lexer step shared by the C3 proofs: a `-` in negation position
(previous non-negation token an operator, or no tokens at all, and previous
token not a number) emits exactly one `Negation` token and consumes one
character, independently of what follows. -/
theorem negation_step (fuel : Nat) (rest : List Char) (ind : Nat) (tokens : List Token)
    (h1 : (lastIsOp tokens || tokens.isEmpty) = true) (h2 : lastIsNum tokens = false) :
    lexLoop fuel ('-' :: rest) ind tokens none =
      lexLoop fuel rest (ind + 1) (tokens ++ [.Negation]) none := by
  cases rest with
  | nil =>
      simp +decide [lexLoop, dispatchBuilder, h1, h2, Builder.push, Builder.can_insert,
        Builder.into_token]
  | cons ch rest' =>
      simp +decide [lexLoop, dispatchBuilder, h1, h2, Builder.push, Builder.can_insert,
        Builder.into_token]

/-- Three leading minuses: the first is a negation (token list empty), the
second is dispatched as a binary Minus operator (the token list `[Negation]`
is non-empty and its last non-negation token is absent, so the
negation-position test fails), the third is a negation again. -/
theorem three_minus_prefix (fuel : Nat) (rest : List Char) (ind : Nat) :
    lexLoop fuel ('-' :: '-' :: '-' :: rest) ind [] none =
      lexLoop fuel rest (ind + 3) [.Negation, .Op .Minus, .Negation] none := by
  rw [negation_step fuel _ ind [] (by decide) (by decide)]
  rw [show ([] ++ [Token.Negation] : List Token) = [Token.Negation] from rfl]
  have hstep2 :
      lexLoop fuel ('-' :: '-' :: rest) (ind + 1) [Token.Negation] none =
        lexLoop fuel ('-' :: rest) (ind + 2) [Token.Negation, .Op .Minus] none := by
    simp +decide [lexLoop, dispatchBuilder, lastIsOp, lastIsNum, Token.is_neg, Token.is_op,
      Token.is_num, Builder.push, Builder.can_insert, Builder.into_token, Operator.from_char,
      Operator.is_operator]
  rw [hstep2, negation_step fuel rest (ind + 2) [Token.Negation, .Op .Minus]
    (by decide) (by decide)]
  norm_num

/-- C3 (amended): a `-` is a Negation token exactly when the token list is
literally empty or the last non-negation token is an operator (and the last
token is not a number); a token list consisting only of negations does not
count as "previous non-negation token absent". Consequently, at the start
of the input the first `-` is a Negation, the second of three consecutive
minuses becomes a binary Minus operator, the third a Negation again, so
`---2` lexes to `[Negation, Op Minus, Negation, Number 2]` rather than to
three stacked Negation tokens. -/
theorem C3_negation_lexing :
    (∀ (fuel : Nat) (rest : List Char) (ind : Nat) (tokens : List Token),
        (lastIsOp tokens || tokens.isEmpty) = true → lastIsNum tokens = false →
        lexLoop fuel ('-' :: rest) ind tokens none =
          lexLoop fuel rest (ind + 1) (tokens ++ [.Negation]) none) ∧
      (∀ (fuel : Nat) (rest : List Char) (ind : Nat),
        lexLoop fuel ('-' :: '-' :: '-' :: rest) ind [] none =
          lexLoop fuel rest (ind + 3) [.Negation, .Op .Minus, .Negation] none) ∧
      lex "---2" = .ok [.Negation, .Op .Minus, .Negation, .Number 2] := by
  refine ⟨negation_step, three_minus_prefix, ?_⟩
  simp +decide [lex, lex_ind, lexLoop, dispatchBuilder, lastIsOp, lastIsNum, Builder.push,
    Builder.can_insert, Builder.into_token, Operator.from_char, Operator.is_operator,
    isLowerOrUnderscore, partAt, rustParseF64, takeDigits, digitsVal, parseExpPart,
    Token.is_op, Token.is_neg, Token.is_num, LexError.is_eof, checked_sub]

/-- Witness for C3's amended theorem: the negation-position step applied at
the empty token list. -/
theorem C3_negation_lexing_witness :
    lexLoop 1 ['-'] 0 [] none = lexLoop 1 [] 1 ([] ++ [Token.Negation]) none :=
  C3_negation_lexing.1 1 [] 0 [] (by decide) (by decide)

/-- Counterexample to C3 as stated: lexing `---2` yields
`[Negation, Op Minus, Negation, Number 2]`, which is not three stacked
Negation tokens followed by the Number token. -/
theorem C3_counterexample :
    lex "---2" = .ok [.Negation, .Op .Minus, .Negation, .Number 2] ∧
      ([Token.Negation, .Op .Minus, .Negation, .Number 2] : List Token) ≠
        [.Negation, .Negation, .Negation, .Number 2] := by
  constructor
  · simp +decide [lex, lex_ind, lexLoop, dispatchBuilder, lastIsOp, lastIsNum, Builder.push,
      Builder.can_insert, Builder.into_token, Operator.from_char, Operator.is_operator,
      isLowerOrUnderscore, partAt, rustParseF64, takeDigits, digitsVal, parseExpPart,
      Token.is_op, Token.is_neg, Token.is_num, LexError.is_eof, checked_sub]
  · simp

/-- C5 (amended): an unterminated group (builder not complete at end of
input) fails with `UnexpectedEOF`, surfaced to the caller unchanged (when
the group is non-empty; an empty unterminated group reports
`EmptyParentheses`). The `UnexpectedCharacter{')', …}` rewriting instead
applies to a *terminated* group whose inner token sequence fails with
`UnexpectedEOF`: the error becomes `UnexpectedCharacter{')', p}` with `p`
the index of the group's closing parenthesis
(`inner.length + start + 1`). End to end: `lex "(3"` is `UnexpectedEOF`
while `lex "(3+)"` is `UnexpectedCharacter{')', 3}`. -/
theorem C5_unterminated_group :
    (∀ (inner : List Char) (level start fuel : Nat),
        Builder.into_token fuel (.ParenB inner level false start) =
          .error (if inner.isEmpty then .EmptyParentheses else .UnexpectedEOF)) ∧
      (∀ (inner : List Char) (level start fuel : Nat), inner.isEmpty = false →
        lex_ind fuel inner start = .error .UnexpectedEOF →
        Builder.into_token (fuel + 1) (.ParenB inner level true start) =
          .error (.UnexpectedCharacter ')' (inner.length + start + 1))) ∧
      lex "(3" = .error .UnexpectedEOF ∧
      lex "(3+)" = .error (.UnexpectedCharacter ')' 3) := by
  refine ⟨?_, ?_, ?_, ?_⟩
  · intro inner level start fuel
    rw [Builder.into_token.eq_def]
    by_cases h : inner.isEmpty <;> simp [h]
  · intro inner level start fuel h hlex
    rw [Builder.into_token.eq_def]
    simp [h, hlex, LexError.is_eof]
  · simp +decide [lex, lex_ind, lexLoop, dispatchBuilder, lastIsOp, lastIsNum, Builder.push,
      Builder.can_insert, Builder.into_token, Operator.from_char, Operator.is_operator,
      isLowerOrUnderscore, partAt, rustParseF64, takeDigits, digitsVal, parseExpPart,
      Token.is_op, Token.is_neg, Token.is_num, LexError.is_eof, checked_sub]
  · simp +decide [lex, lex_ind, lexLoop, dispatchBuilder, lastIsOp, lastIsNum, Builder.push,
      Builder.can_insert, Builder.into_token, Operator.from_char, Operator.is_operator,
      isLowerOrUnderscore, partAt, rustParseF64, takeDigits, digitsVal, parseExpPart,
      Token.is_op, Token.is_neg, Token.is_num, LexError.is_eof, checked_sub]

/-- Witness for C5's amended theorem: the incomplete-group arm at a
non-empty inner text, and the complete-group arm at the inner text of
`(3+)`, whose inner lex fails with `UnexpectedEOF`. -/
theorem C5_unterminated_group_witness :
    Builder.into_token 0 (.ParenB ['3'] 1 false 0) = .error .UnexpectedEOF ∧
      Builder.into_token 1 (.ParenB ['3', '+'] 0 true 0) =
        .error (.UnexpectedCharacter ')' 3) := by
  constructor
  · have h := C5_unterminated_group.1 ['3'] 1 0 0
    simpa using h
  · exact C5_unterminated_group.2.1 ['3', '+'] 0 0 0 (by decide)
      (by simp +decide [lex_ind, lexLoop, dispatchBuilder, lastIsOp, lastIsNum, Builder.push,
        Builder.can_insert, Builder.into_token, Operator.from_char, Operator.is_operator,
        isLowerOrUnderscore, partAt, rustParseF64, takeDigits, digitsVal, parseExpPart,
        Token.is_op, Token.is_neg, Token.is_num, LexError.is_eof, checked_sub])

/-- Counterexample to C5 as stated: lexing the unterminated group `(3`
fails with `UnexpectedEOF`, not with an `UnexpectedCharacter{')', …}`
error (in particular not at position 2, one past the group's content). -/
theorem C5_counterexample :
    lex "(3" = .error .UnexpectedEOF ∧
      (Except.error LexError.UnexpectedEOF : Except LexError (List Token)) ≠
        .error (.UnexpectedCharacter ')' 2) := by
  constructor
  · simp +decide [lex, lex_ind, lexLoop, dispatchBuilder, lastIsOp, lastIsNum, Builder.push,
      Builder.can_insert, Builder.into_token, Operator.from_char, Operator.is_operator,
      isLowerOrUnderscore, partAt, rustParseF64, takeDigits, digitsVal, parseExpPart,
      Token.is_op, Token.is_neg, Token.is_num, LexError.is_eof, checked_sub]
  · simp

/-- Helper for C4: every error the dispatch step produces carries the
running index and the rejected character. -/
theorem dispatch_error_position (c : Char) (ind : Nat) (tokens : List Token) (e : LexError)
    (h : dispatchBuilder c ind tokens = .error e) : e = .UnexpectedCharacter c ind := by
  unfold dispatchBuilder at h
  split_ifs at h <;> simp_all

/-- Helper for C4: a character the dispatch step rejects makes the lexer
fail with `UnexpectedCharacter` at exactly the running index. -/
theorem reject_step (fuel : Nat) (rest : List Char) (ind : Nat) (tokens : List Token)
    (c : Char) (e : LexError) (h : dispatchBuilder c ind tokens = .error e) :
    lexLoop fuel (c :: rest) ind tokens none = .error (.UnexpectedCharacter c ind) := by
  have he := dispatch_error_position c ind tokens e h
  subst he
  simp [lexLoop, h]

/-- Peeling one nesting level off the `(…(@)…)` family. -/
theorem nestedAt_succ (d : Nat) : nestedAt (d + 1) = '(' :: (nestedAt d ++ [')']) := by
  unfold nestedAt
  rw [List.replicate_succ, List.replicate_succ' (n := d) (a := ')')]
  simp

/-- The `(…(@)…)` family is never empty. -/
theorem nestedAt_ne_nil (d : Nat) : ∃ ch tl, nestedAt d = ch :: tl := by
  cases d with
  | zero => exact ⟨'@', [], rfl⟩
  | succ d => exact ⟨'(', nestedAt d ++ [')'], nestedAt_succ d⟩

/-- Length of the `(…(@)…)` family. -/
theorem length_nestedAt (d : Nat) : (nestedAt d).length = 2 * d + 1 := by
  simp [nestedAt]
  omega

/-- Feeding the balanced fragment `nestedAt d` into a pending, incomplete
`ParenthesesBuilder` keeps it pending and incomplete: the nesting level
returns to its starting value, all `2d + 1` characters are appended to the
builder's inner text, and the running index advances by the fragment's
length. -/
theorem feed_nested (d : Nat) : ∀ (inner : List Char) (level start ind : Nat)
    (tokens : List Token) (fuel : Nat) (rest : List Char), 1 ≤ level → rest ≠ [] →
    lexLoop fuel (nestedAt d ++ rest) ind tokens (some (.ParenB inner level false start)) =
      lexLoop fuel rest (ind + (nestedAt d).length) tokens
        (some (.ParenB (inner ++ nestedAt d) level false start)) := by
  induction d with
  | zero =>
      intro inner level start ind tokens fuel rest hl hr
      obtain ⟨ch, rest', rfl⟩ : ∃ ch r', rest = ch :: r' := by
        cases rest with
        | nil => simp at hr
        | cons a b => exact ⟨a, b, rfl⟩
      have h0 : 0 < level := hl
      simp [nestedAt, lexLoop, Builder.push, Builder.can_insert, h0, Nat.pos_iff_ne_zero]
  | succ d ih =>
      intro inner level start ind tokens fuel rest hl hr
      obtain ⟨ch0, tl0, hsplit⟩ := nestedAt_ne_nil d
      have h0 : 0 < level := hl
      rw [nestedAt_succ]
      have step1 :
          lexLoop fuel (('(' :: (nestedAt d ++ [')'])) ++ rest) ind tokens
              (some (.ParenB inner level false start)) =
            lexLoop fuel ((nestedAt d ++ [')']) ++ rest) (ind + 1) tokens
              (some (.ParenB (inner ++ ['(']) (level + 1) false start)) := by
        rw [List.cons_append]
        rw [lexLoop.eq_def]
        simp [Builder.push, h0, Builder.can_insert, hsplit, List.append_assoc]
      rw [step1]
      have harr : (nestedAt d ++ [')']) ++ rest = nestedAt d ++ (')' :: rest) := by
        simp
      rw [harr, ih (inner ++ ['(']) (level + 1) start (ind + 1) tokens fuel (')' :: rest)
        (by omega) (by simp)]
      obtain ⟨ch, rest', rfl⟩ : ∃ ch r', rest = ch :: r' := by
        cases rest with
        | nil => simp at hr
        | cons a b => exact ⟨a, b, rfl⟩
      have step3 :
          lexLoop fuel (')' :: ch :: rest') (ind + 1 + (nestedAt d).length) tokens
              (some (.ParenB ((inner ++ ['(']) ++ nestedAt d) (level + 1) false start)) =
            lexLoop fuel (ch :: rest') (ind + 1 + (nestedAt d).length + 1) tokens
              (some (.ParenB (((inner ++ ['(']) ++ nestedAt d) ++ [')']) level false start)) := by
        rw [lexLoop.eq_def]
        have hlv : level ≠ 0 := by omega
        simp [Builder.push, Builder.can_insert, checked_sub, h0, hlv]
      rw [step3]
      have hlen : ind + 1 + (nestedAt d).length + 1 = ind + (nestedAt (d + 1)).length := by
        rw [length_nestedAt, length_nestedAt]
        omega
      have hinner : ((inner ++ ['(']) ++ nestedAt d) ++ [')'] = inner ++ nestedAt (d + 1) := by
        rw [nestedAt_succ]
        simp
      rw [hlen, hinner, ← nestedAt_succ]

/-- Sub-lexing the `(…(@)…)` family from any base index `i` reports the
`@` at position `i` itself — each nesting level re-enters the sub-lexer
with the index of its opening parenthesis, so the depth is never added. -/
theorem nested_report (d : Nat) : ∀ (fuel i : Nat), d + 1 ≤ fuel →
    lex_ind fuel (nestedAt d) i = .error (.UnexpectedCharacter '@' i) := by
  induction d with
  | zero =>
      intro fuel i _
      simp +decide [nestedAt, lex_ind, lexLoop, dispatchBuilder, lastIsOp, lastIsNum]
  | succ d ih =>
      intro fuel i hf
      obtain ⟨f, rfl⟩ : ∃ f, fuel = f + 1 := ⟨fuel - 1, by omega⟩
      obtain ⟨ch0, tl0, hsplit⟩ := nestedAt_ne_nil d
      rw [lex_ind, nestedAt_succ]
      have step1 :
          lexLoop (f + 1) ('(' :: (nestedAt d ++ [')'])) i [] none =
            lexLoop (f + 1) (nestedAt d ++ [')']) (i + 1) [] (some (.ParenB [] 1 false i)) := by
        rw [lexLoop.eq_def]
        simp +decide [dispatchBuilder, lastIsOp, lastIsNum, Builder.push, Builder.can_insert,
          hsplit, checked_sub]
      rw [step1, feed_nested d [] 1 i (i + 1) [] (f + 1) [')'] (by omega) (by simp)]
      have hIH := ih f i (by omega)
      rw [hsplit] at hIH
      rw [lexLoop.eq_def]
      simp [Builder.push, checked_sub, hsplit, hIH, LexError.is_eof, Builder.into_token.eq_def]

/-- C4 (amended): at the top level a rejected character is reported at its
exact 0-based offset (first conjunct: whatever the running index is when a
character is rejected, the error carries that index), but positions do
*not* accumulate to top-level offsets across recursive sub-lexer calls:
the sub-lexer for a group starts at the index of the group's opening `(`,
one short of where its content begins, losing one position per nesting
level. In particular, for every depth `d + 1` the input
`(…(@)…)` reports its `@` — whose true offset is `d + 1` — at
position 0. -/
theorem C4_position_tracking :
    (∀ (fuel : Nat) (rest : List Char) (ind : Nat) (tokens : List Token) (c : Char)
        (e : LexError), dispatchBuilder c ind tokens = .error e →
        lexLoop fuel (c :: rest) ind tokens none = .error (.UnexpectedCharacter c ind)) ∧
      ∀ d : Nat,
        lex (String.mk (nestedAt (d + 1))) = .error (.UnexpectedCharacter '@' 0) ∧
          (nestedAt (d + 1))[d + 1]? = some '@' := by
  refine ⟨reject_step, fun d => ⟨?_, ?_⟩⟩
  · show lex_ind ((String.mk (nestedAt (d + 1))).length + 1) (nestedAt (d + 1)) 0 = _
    apply nested_report
    have := length_nestedAt (d + 1)
    simp only [String.length, String.data]
    omega
  · rw [nestedAt, List.getElem?_append_right (by simp)]
    simp

/-- Witness for C4's amended theorem: the rejected `@` at the top level,
reported at its exact offset 0. -/
theorem C4_position_tracking_witness :
    lexLoop 1 ['@'] 0 [] none = .error (.UnexpectedCharacter '@' 0) :=
  C4_position_tracking.1 1 [] 0 [] '@' (.UnexpectedCharacter '@' 0) rfl

/-- Counterexample to C4 as stated: in `(@)` the rejected `@` sits at
top-level offset 1, but the error reports position 0. -/
theorem C4_counterexample :
    lex "(@)" = .error (.UnexpectedCharacter '@' 0) ∧ "(@)".data[1]? = some '@' := by
  constructor
  · simp +decide [lex, lex_ind, lexLoop, dispatchBuilder, lastIsOp, lastIsNum, Builder.push,
      Builder.can_insert, Builder.into_token, Operator.from_char, Operator.is_operator,
      isLowerOrUnderscore, partAt, rustParseF64, takeDigits, digitsVal, parseExpPart,
      Token.is_op, Token.is_neg, Token.is_num, LexError.is_eof, checked_sub]
  · decide



/-! Machinery for C7: the length invariant of contextualization and its
preservation through the reducer tier sweeps. -/

theorem posList_nil (p : OperatorPrecedence) : posList [] p = [] := by
  simp [posList]

theorem posList_cons (o : Operator) (ops : List Operator) (p : OperatorPrecedence) :
    posList (o :: ops) p =
      (if o.precedence == p then [0] else []) ++ (posList ops p).map Nat.succ := by
  unfold posList
  rw [List.length_cons, List.range_succ_eq_map]
  rw [List.filter_cons]
  by_cases h : o.precedence = p
  · simp [h, List.filter_map, Function.comp_def]
  · simp [h, List.filter_map, Function.comp_def]

theorem enumFrom_map_snd (f : Nat → Nat) (ps : List Nat) : ∀ j : Nat,
    (ps.map f).enumFrom j = (ps.enumFrom j).map (fun ki => (ki.1, f ki.2)) := by
  induction ps with
  | nil => intro j; rfl
  | cons a ps ih => intro j; simp [List.enumFrom, ih]

theorem enumFrom_shift_fst (ps : List Nat) : ∀ j : Nat,
    ps.enumFrom (j + 1) = (ps.enumFrom j).map (fun ki => (ki.1 + 1, ki.2)) := by
  induction ps with
  | nil => intro j; rfl
  | cons a ps ih => intro j; simp [List.enumFrom, ih]

theorem checked_sub_succ_succ (a b : Nat) : checked_sub (a + 1) (b + 1) = checked_sub a b := by
  simp [checked_sub, Nat.succ_le_succ_iff]

theorem enum_le_of_pairwise (ps : List Nat) : ∀ j : Nat, ps.Pairwise (· < ·) →
    (∀ n ∈ ps, j ≤ n) → ∀ ki ∈ ps.enumFrom j, ki.1 ≤ ki.2 := by
  induction ps with
  | nil => intro j _ _ ki hki; simp [List.enumFrom] at hki
  | cons a ps ih =>
      intro j hp hge ki hki
      simp only [List.enumFrom, List.mem_cons] at hki
      rcases hki with rfl | hki
      · exact hge a (by simp)
      · refine ih (j + 1) hp.of_cons ?_ ki hki
        intro n hn
        have h1 := hp.tail  -- not needed
        have h2 : a < n := (List.pairwise_cons.mp hp).1 n hn
        have h3 : j ≤ a := hge a (by simp)
        omega

theorem posList_pairwise (ops : List Operator) (p : OperatorPrecedence) :
    (posList ops p).Pairwise (· < ·) :=
  List.Pairwise.sublist (List.filter_sublist _) (List.pairwise_lt_range _)

theorem instancesFor_nil (p : OperatorPrecedence) : instancesFor [] p = [] := by
  simp [instancesFor, posList_nil]

theorem instancesFor_cons (o : Operator) (ops : List Operator) (p : OperatorPrecedence) :
    instancesFor (o :: ops) p =
      if o.precedence == p then 0 :: instancesFor ops p
      else (instancesFor ops p).map Nat.succ := by
  unfold instancesFor
  rw [posList_cons]
  by_cases h : o.precedence = p
  · simp only [h, beq_self_eq_true, if_true, List.singleton_append, List.enum, List.enumFrom]
    rw [List.filterMap_cons]
    rw [enumFrom_map_snd, show (1 : Nat) = 0 + 1 from rfl, enumFrom_shift_fst]
    simp [checked_sub, List.filterMap_map, Function.comp_def, checked_sub_succ_succ]
  · have hb : (o.precedence == p) = false := by simp [h]
    simp only [hb, Bool.false_eq_true, if_false, List.nil_append, List.enum]
    rw [enumFrom_map_snd, List.filterMap_map, List.map_filterMap]
    have hle := enum_le_of_pairwise (posList ops p) 0 (posList_pairwise ops p)
      (fun n _ => Nat.zero_le n)
    apply List.filterMap_congr
    intro ki hki
    have h1 : ki.1 ≤ ki.2 := hle ki hki
    simp only [Function.comp_def, checked_sub]
    rw [if_pos (by omega), if_pos h1]
    simp
    omega

theorem reduce_at_zero (e1 e2 : Expression) (rest : List Expression) (op : Operator)
    (ops : List Operator) (b : Bool) :
    reduce_at ⟨e1 :: e2 :: rest, op :: ops⟩ 0 b =
      ⟨(if b then Expression.negate (.Binary op e1.non_neg.1 e2) e1.non_neg.2
        else .Binary op e1 e2) :: rest, ops⟩ := by
  simp [reduce_at]

theorem reduce_at_cons_succ (e : Expression) (exprs : List Expression) (o : Operator)
    (ops : List Operator) (i : Nat) (b : Bool) :
    reduce_at ⟨e :: exprs, o :: ops⟩ (i + 1) b =
      ⟨e :: (reduce_at ⟨exprs, ops⟩ i b).expressions,
        o :: (reduce_at ⟨exprs, ops⟩ i b).operators⟩ := by
  by_cases hg : i + 1 < exprs.length ∧ i < ops.length
  · obtain ⟨x, hx⟩ : ∃ x, ops[i]? = some x :=
      ⟨ops[i], List.getElem?_eq_getElem hg.2⟩
    obtain ⟨l, hlg⟩ : ∃ l, exprs[i]? = some l :=
      ⟨exprs[i], List.getElem?_eq_getElem (by omega)⟩
    obtain ⟨r, hrg⟩ : ∃ r, exprs[i + 1]? = some r :=
      ⟨exprs[i + 1], List.getElem?_eq_getElem hg.1⟩
    unfold reduce_at
    rw [if_pos (by simp; omega), if_pos (by simp [hg.1, hg.2])]
    simp [hx, hlg, hrg, List.insertIdx_succ_cons]
  · unfold reduce_at
    rw [if_neg (by simp; omega), if_neg (by simpa using hg)]

theorem foldl_reduce_map_succ (b : Bool) (is : List Nat) : ∀ (e : Expression)
    (exprs : List Expression) (o : Operator) (ops : List Operator),
    (is.map Nat.succ).foldl (fun t i => reduce_at t i b) ⟨e :: exprs, o :: ops⟩ =
      ⟨e :: (is.foldl (fun t i => reduce_at t i b) ⟨exprs, ops⟩).expressions,
        o :: (is.foldl (fun t i => reduce_at t i b) ⟨exprs, ops⟩).operators⟩ := by
  induction is with
  | nil => intro e exprs o ops; rfl
  | cons i is ih =>
      intro e exprs o ops
      simp only [List.map_cons, List.foldl_cons]
      rw [reduce_at_cons_succ, ih]

theorem reduceTier_spec (p : OperatorPrecedence) (ops : List Operator) :
    ∀ exprs : List Expression, exprs.length = ops.length + 1 →
    (reduceTier ⟨exprs, ops⟩ p).operators = ops.filter (fun o => !(o.precedence == p)) ∧
      (reduceTier ⟨exprs, ops⟩ p).expressions.length =
        (reduceTier ⟨exprs, ops⟩ p).operators.length + 1 := by
  induction ops with
  | nil =>
      intro exprs h
      exact ⟨by simp [reduceTier, instancesFor_nil],
        by simp [reduceTier, instancesFor_nil, h]⟩
  | cons o ops ih =>
      intro exprs h
      obtain ⟨e1, e2, rest, rfl⟩ : ∃ e1 e2 r, exprs = e1 :: e2 :: r := by
        cases exprs with
        | nil => simp at h
        | cons a tl =>
            cases tl with
            | nil => simp at h
            | cons c tl2 => exact ⟨a, c, tl2, rfl⟩
      have hlen : (e2 :: rest).length = ops.length + 1 := by
        simpa using h
      unfold reduceTier
      rw [instancesFor_cons]
      by_cases hp : o.precedence = p
      · simp only [hp, beq_self_eq_true, if_true, List.foldl_cons]
        rw [reduce_at_zero]
        have hlen2 :
            ((if (p == OperatorPrecedence.Exp) then
                Expression.negate (.Binary o e1.non_neg.1 e2) e1.non_neg.2
              else .Binary o e1 e2) :: rest).length = ops.length + 1 := by
        -- wait: reduce_at merged e1 e2; new list length = rest.length + 1 = ops.length + 1?
          simp
          simp at hlen
          omega
        have hres := ih _ hlen2
        simp only [reduceTier] at hres
        refine ⟨?_, hres.2⟩
        rw [hres.1]
        simp [hp]
      · have hb : (o.precedence == p) = false := by simp [hp]
        simp only [hb, Bool.false_eq_true, if_false]
        rw [foldl_reduce_map_succ]
        have hres := ih (e2 :: rest) hlen
        simp only [reduceTier] at hres
        obtain ⟨hr1, hr2⟩ := hres
        constructor
        · simp only [List.filter_cons, hb]
          simp only [Bool.not_false, if_true]
          rw [← hr1]
        · simp only [List.length_cons]
          omega

theorem into_ast_ok (s : ContextualizedTokens)
    (h : s.expressions.length = s.operators.length + 1) : ∃ e, s.into_ast = .ok e := by
  obtain ⟨exprs, ops⟩ := s
  simp only at h
  have hVals : OperatorPrecedence.VALUES.reverse =
      [OperatorPrecedence.Exp, .MultDiv, .PlusMinus] := rfl
  have h1 := reduceTier_spec .Exp ops exprs h
  set s1 := reduceTier ⟨exprs, ops⟩ .Exp with hs1
  have h1e : s1 = ⟨s1.expressions, s1.operators⟩ := rfl
  have h2 := reduceTier_spec .MultDiv s1.operators s1.expressions h1.2
  rw [← h1e] at h2
  set s2 := reduceTier s1 .MultDiv with hs2
  have h2e : s2 = ⟨s2.expressions, s2.operators⟩ := rfl
  have h3 := reduceTier_spec .PlusMinus s2.operators s2.expressions h2.2
  rw [← h2e] at h3
  set s3 := reduceTier s2 .PlusMinus with hs3
  have hops3 : s3.operators = [] := by
    rw [h3.1, h2.1, h1.1]
    rw [List.filter_filter, List.filter_filter]
    rw [List.filter_eq_nil_iff]
    intro a _
    cases a <;> decide
  have hlen3 : s3.expressions.length = 1 := by
    have hx := h3.2
    rw [hops3] at hx
    simpa using hx
  obtain ⟨e, he⟩ : ∃ e, s3.expressions = [e] := by
    cases hx : s3.expressions with
    | nil => rw [hx] at hlen3; simp at hlen3
    | cons a tl =>
        cases tl with
        | nil => exact ⟨a, rfl⟩
        | cons b tl2 => rw [hx] at hlen3; simp at hlen3
  refine ⟨e, ?_⟩
  unfold ContextualizedTokens.into_ast
  rw [if_neg (by simpa using h)]
  have hfold : OperatorPrecedence.VALUES.reverse.foldl reduceTier ⟨exprs, ops⟩ = s3 := by
    rw [hVals]
    rw [List.foldl_cons, List.foldl_cons, List.foldl_cons, List.foldl_nil]
  rw [hfold]
  simp only [he, hops3]
  simp

theorem fromTokens_ok_length (vars : VarMap) (toks : List Token) (r : ContextualizedTokens)
    (h : ContextualizedTokens.fromTokens vars toks = .ok r) :
    r.expressions.length = r.operators.length + 1 := by
  unfold ContextualizedTokens.fromTokens at h
  cases hl : fromTokensLoop vars toks initCtxState with
  | error e => rw [hl] at h; simp at h
  | ok st =>
      rw [hl] at h
      dsimp only at h
      by_cases hc :
          ((checked_sub st.expressions.length st.operators.length).filter
            (fun d => d == 1)).isSome
      · rw [if_pos hc] at h
        have hr : r = ⟨st.expressions, st.operators⟩ := by
          cases h
          rfl
        subst hr
        simp only [checked_sub] at hc
        by_cases hle : st.operators.length ≤ st.expressions.length
        · rw [if_pos hle] at hc
          simp [Option.filter] at hc
          dsimp only
          omega
        · rw [if_neg hle] at hc
          simp [Option.filter] at hc
      · rw [if_neg hc] at h
        simp at h

theorem reduce_at_counts (exprs : List Expression) (ops : List Operator) (ind : Nat) (b : Bool)
    (h1 : ind + 1 < exprs.length) (h2 : ind < ops.length) :
    (reduce_at ⟨exprs, ops⟩ ind b).expressions.length = exprs.length - 1 ∧
      (reduce_at ⟨exprs, ops⟩ ind b).operators.length = ops.length - 1 := by
  obtain ⟨x, hx⟩ : ∃ x, ops[ind]? = some x := ⟨ops[ind], List.getElem?_eq_getElem h2⟩
  obtain ⟨l, hlg⟩ : ∃ l, exprs[ind]? = some l :=
    ⟨exprs.get ⟨ind, by omega⟩, by simp [List.getElem?_eq_getElem (show ind < exprs.length by omega)]⟩
  obtain ⟨r, hrg⟩ : ∃ r, exprs[ind + 1]? = some r := ⟨exprs[ind + 1], List.getElem?_eq_getElem h1⟩
  have hx' : ops.get? ind = some x := by rw [List.get?_eq_getElem?]; exact hx
  have hlg' : exprs.get? ind = some l := by rw [List.get?_eq_getElem?]; exact hlg
  have hrg' : exprs.get? (ind + 1) = some r := by rw [List.get?_eq_getElem?]; exact hrg
  unfold reduce_at
  dsimp only
  rw [if_pos (by exact ⟨h1, h2⟩)]
  rw [hx', hlg', hrg']
  have he1 : (exprs.eraseIdx ind).length + 1 = exprs.length :=
    List.length_eraseIdx_add_one (by omega)
  have he2 : ((exprs.eraseIdx ind).eraseIdx ind).length + 1 = (exprs.eraseIdx ind).length :=
    List.length_eraseIdx_add_one (by omega)
  have he3 : (ops.eraseIdx ind).length + 1 = ops.length :=
    List.length_eraseIdx_add_one h2
  constructor
  · dsimp only
    rw [List.length_insertIdx _ _ (by omega)]
    omega
  · dsimp only
    omega


/-- Helper for C2: folding at any exponent-tier position strips the left
operand's `Negation` wrappers and re-applies them around the resulting
`Binary` node, leaving everything before and after the fold untouched. -/
theorem reduce_at_exp_strip : ∀ (pre : List Expression) (preops : List Operator),
    preops.length = pre.length →
    ∀ (l r : Expression) (n : Nat) (rest : List Expression) (op : Operator)
      (ops : List Operator), l.isNegationNode = false →
    reduce_at ⟨pre ++ Expression.negate l n :: r :: rest, preops ++ op :: ops⟩ pre.length true =
      ⟨pre ++ Expression.negate (.Binary op l r) n :: rest, preops ++ ops⟩ := by
  intro pre
  induction pre with
  | nil =>
      intro preops hlen l r n rest op ops h
      obtain rfl : preops = [] := List.length_eq_zero.mp hlen
      simp only [List.nil_append, List.length_nil]
      simp [reduce_at, non_neg_negate_aux l n h]
  | cons e pre ih =>
      intro preops hlen l r n rest op ops h
      obtain ⟨o, preops', rfl⟩ : ∃ o t, preops = o :: t := by
        cases preops with
        | nil => simp at hlen
        | cons a t => exact ⟨a, t, rfl⟩
      have hlen' : preops'.length = pre.length := by simpa using hlen
      simp only [List.cons_append, List.length_cons]
      rw [reduce_at_cons_succ]
      rw [ih preops' hlen' l r n rest op ops h]

/-- C2: folding an exponent-tier operator (at any position, for any number
`n` of `Negation` wrappers on the left operand) strips the wrappers off the
left operand, builds the `Binary` node from the stripped operand and the
unchanged right operand, and re-wraps the result in the same `n` layers;
consequently the whole pipeline evaluates `-2^2` in radian mode to `-4`,
i.e. `-(2^2)` and not `(-2)^2`. (The Rust entry point fixes the
environment to `DEFAULT_VARS`; the input `-2^2` never consults the
environment, so the statement quantifies over it.) -/
theorem C2_exponent_negation :
    (∀ (pre : List Expression) (preops : List Operator), preops.length = pre.length →
      ∀ (l r : Expression) (n : Nat) (rest : List Expression) (op : Operator)
        (ops : List Operator), l.isNegationNode = false →
      reduce_at ⟨pre ++ Expression.negate l n :: r :: rest, preops ++ op :: ops⟩
          pre.length true =
        ⟨pre ++ Expression.negate (.Binary op l r) n :: rest, preops ++ ops⟩) ∧
      ∀ vars : VarMap, eval_math vars "-2^2" .Rad = .ok (-4) := by
  constructor
  · exact reduce_at_exp_strip
  · intro vars
    simp +decide [eval_math, lex, lex_ind, lexLoop, dispatchBuilder, lastIsOp, lastIsNum,
      Builder.push, Builder.can_insert, Builder.into_token, Operator.from_char,
      Operator.is_operator, isLowerOrUnderscore, partAt, rustParseF64, takeDigits, digitsVal,
      parseExpPart, Token.is_op, Token.is_neg, Token.is_num, LexError.is_eof, checked_sub,
      ast_gen, ContextualizedTokens.fromTokens, fromTokensLoop, initCtxState,
      ContextualizedTokens.into_ast, reduceTier, instancesFor, posList, reduce_at,
      Expression.negate, Expression.non_neg, Operator.precedence, OperatorPrecedence.VALUES,
      Expression.get_value, Operator.apply, powf, List.range_succ, List.enum, List.enumFrom,
      Option.filter, List.foldl]
    norm_num

/-- Witness for C2 at the state produced by contextualizing `-2^2`
(`[Negation(2), 2]` with the single operator `^`) and at the empty
environment. -/
theorem C2_exponent_negation_witness :
    reduce_at ⟨[Expression.negate (.Number 2) 1, .Number 2], [.Exp]⟩ 0 true =
        ⟨[Expression.negate (.Binary .Exp (.Number 2) (.Number 2)) 1], []⟩ ∧
      eval_math (fun _ => none) "-2^2" .Rad = .ok (-4) :=
  ⟨C2_exponent_negation.1 [] [] rfl (.Number 2) (.Number 2) 1 [] .Exp [] rfl,
    C2_exponent_negation.2 (fun _ => none)⟩

/-- C7: (1) contextualization returns `Ok` only with
`len(expressions) = len(operators) + 1`; (2) every guarded fold of the
reducer removes exactly one operator and replaces two adjacent expressions
by one; (3) under the length invariant the reducer always produces a
single expression — `into_ast` never returns `UnexpectedEOF`. -/
theorem C7_length_invariant :
    (∀ (vars : VarMap) (toks : List Token) (r : ContextualizedTokens),
        ContextualizedTokens.fromTokens vars toks = .ok r →
        r.expressions.length = r.operators.length + 1) ∧
      (∀ (exprs : List Expression) (ops : List Operator) (ind : Nat) (b : Bool),
        ind + 1 < exprs.length → ind < ops.length →
        (reduce_at ⟨exprs, ops⟩ ind b).expressions.length = exprs.length - 1 ∧
          (reduce_at ⟨exprs, ops⟩ ind b).operators.length = ops.length - 1) ∧
      ∀ s : ContextualizedTokens, s.expressions.length = s.operators.length + 1 →
        ∃ e, s.into_ast = .ok e :=
  ⟨fromTokens_ok_length, reduce_at_counts, into_ast_ok⟩

/-- Witness for C7 at concrete inputs: contextualizing `[Var "x"]` under
`envX` gives one expression and no operators; one fold on
`([1, 2], [+])` leaves one expression and no operators; `into_ast`
succeeds on the singleton state. -/
theorem C7_length_invariant_witness :
    ((ContextualizedTokens.mk [.Number 5] []).expressions.length =
        (ContextualizedTokens.mk [.Number 5] []).operators.length + 1) ∧
      ((reduce_at ⟨[.Number 1, .Number 2], [.Plus]⟩ 0 false).expressions.length =
          [Expression.Number 1, .Number 2].length - 1 ∧
        (reduce_at ⟨[.Number 1, .Number 2], [.Plus]⟩ 0 false).operators.length =
          [Operator.Plus].length - 1) ∧
      ∃ e, ContextualizedTokens.into_ast ⟨[.Number 5], []⟩ = .ok e := by
  refine ⟨?_, ?_, ?_⟩
  · exact C7_length_invariant.1 envX [.Var "x"] ⟨[.Number 5], []⟩
      (by simp +decide [ContextualizedTokens.fromTokens, fromTokensLoop, initCtxState, envX,
        checked_sub])
  · exact C7_length_invariant.2.1 [.Number 1, .Number 2] [.Plus] 0 false (by decide) (by decide)
  · exact C7_length_invariant.2.2 ⟨[.Number 5], []⟩ (by decide)


/-- Helper for C10: `takeDigits` consumes exactly an all-digit prefix when
the remainder does not start with a digit. -/
theorem takeDigits_append (ds : List Char) : ∀ rest : List Char, ds.all Char.isDigit = true →
    (∀ c ∈ rest.head?, c.isDigit = false) → takeDigits (ds ++ rest) = (ds, rest) := by
  induction ds with
  | nil =>
      intro rest _ hr
      cases rest with
      | nil => rfl
      | cons c r =>
          have hc : c.isDigit = false := hr c rfl
          simp [takeDigits, hc]
  | cons d ds ih =>
      intro rest h hr
      have hd : d.isDigit = true := by
        simp only [List.all_cons, Bool.and_eq_true] at h
        exact h.1
      have hds : ds.all Char.isDigit = true := by
        simp only [List.all_cons, Bool.and_eq_true] at h
        exact h.2
      simp [takeDigits, hd, ih rest hds hr]

/-- Helper for C10: the string a `NumberBuilder` assembles for a number
whose exponent segment holds only a sign — digits, an optional fraction,
then `E+` or `E-` — is rejected by the `f64` parser. -/
theorem rustParse_dangling (p0 p1 : List Char) (sgn : Char)
    (h0 : p0.all Char.isDigit = true) (h1 : p1.all Char.isDigit = true)
    (hs : sgn = '+' ∨ sgn = '-') :
    rustParseF64 (p0 ++ (if p1.isEmpty then [] else '.' :: p1) ++ ['E', sgn]) = none := by
  have hExp : parseExpPart ['E', sgn] = none := by
    rcases hs with rfl | rfl <;> rfl
  have hEhead : ∀ c ∈ (['E', sgn] : List Char).head?, c.isDigit = false := by
    intro c hc
    simp at hc
    subst hc
    decide
  cases p0 with
  | nil =>
      cases p1 with
      | nil =>
          rcases hs with rfl | rfl <;> rfl
      | cons c1 cs1 =>
          have ht : takeDigits ((c1 :: cs1) ++ ['E', sgn]) = (c1 :: cs1, ['E', sgn]) :=
            takeDigits_append _ _ h1 hEhead
          have htdot : takeDigits ('.' :: ((c1 :: cs1) ++ ['E', sgn])) =
              ([], '.' :: ((c1 :: cs1) ++ ['E', sgn])) := by
            simp [takeDigits]
          simp only [List.cons_append] at ht htdot
          simp +decide [rustParseF64.eq_def, htdot, ht, hExp]
  | cons c0 cs0 =>
      have hc0 : c0.isDigit = true := by
        simp only [List.all_cons, Bool.and_eq_true] at h0
        exact h0.1
      have hc0p : ¬c0 = '+' := by
        rintro rfl
        simp at hc0
      have hc0m : ¬c0 = '-' := by
        rintro rfl
        simp at hc0
      cases p1 with
      | nil =>
          have ht : takeDigits ((c0 :: cs0) ++ ['E', sgn]) = (c0 :: cs0, ['E', sgn]) :=
            takeDigits_append _ _ h0 hEhead
          simp only [List.cons_append] at ht
          simp +decide [rustParseF64.eq_def, hc0p, hc0m, ht, hExp]
      | cons c1 cs1 =>
          have ht0 : takeDigits ((c0 :: cs0) ++ ('.' :: ((c1 :: cs1) ++ ['E', sgn]))) =
              (c0 :: cs0, '.' :: ((c1 :: cs1) ++ ['E', sgn])) := by
            refine takeDigits_append _ _ h0 ?_
            intro c hc
            simp at hc
            subst hc
            decide
          have ht1 : takeDigits ((c1 :: cs1) ++ ['E', sgn]) = (c1 :: cs1, ['E', sgn]) :=
            takeDigits_append _ _ h1 hEhead
          simp only [List.cons_append] at ht0 ht1
          simp +decide [rustParseF64.eq_def, hc0p, hc0m, ht0, ht1, hExp]

/-- C10: a number whose exponent segment never receives a digit does not
lex to a Number token. First conjunct: for any digit-only integer and
fraction segments and an exponent segment that is empty or a bare sign,
`NumberBuilder::into_token` fails with `UnexpectedEOF` (an empty active
segment fails the `processed_parts` check; a bare sign survives it but the
assembled text `…E+`/`…E-` fails `str::parse::<f64>`). End to end:
`3E` and `3E-` at end of input fail with `UnexpectedEOF`, and `3E-*`
fails with `UnexpectedCharacter{'*', 3}` at the following rejected
character. -/
theorem C10_dangling_exponent :
    (∀ (p0 p1 p2 : List Char) (fuel : Nat), p0.all Char.isDigit = true →
        p1.all Char.isDigit = true → (p2 = [] ∨ p2 = ['+'] ∨ p2 = ['-']) →
        Builder.into_token fuel (.NumberB p0 p1 p2 2) = .error .UnexpectedEOF) ∧
      lex "3E" = .error .UnexpectedEOF ∧
      lex "3E-" = .error .UnexpectedEOF ∧
      lex "3E-*" = .error (.UnexpectedCharacter '*' 3) := by
  refine ⟨?_, ?_, ?_, ?_⟩
  · intro p0 p1 p2 fuel h0 h1 hp2
    rcases hp2 with rfl | rfl | rfl
    · rw [Builder.into_token.eq_def]
      simp
    · rw [Builder.into_token.eq_def]
      have hd := rustParse_dangling p0 p1 '+' h0 h1 (Or.inl rfl)
      simp only [List.isEmpty_iff, List.append_assoc] at hd
      simp +decide [hd]
    · rw [Builder.into_token.eq_def]
      have hd := rustParse_dangling p0 p1 '-' h0 h1 (Or.inr rfl)
      simp only [List.isEmpty_iff, List.append_assoc] at hd
      simp +decide [hd]
  · simp +decide [lex, lex_ind, lexLoop, dispatchBuilder, lastIsOp, lastIsNum, Builder.push,
      Builder.can_insert, Builder.into_token, Operator.from_char, Operator.is_operator,
      isLowerOrUnderscore, partAt, rustParseF64, takeDigits, digitsVal, parseExpPart,
      Token.is_op, Token.is_neg, Token.is_num, LexError.is_eof, checked_sub]
  · simp +decide [lex, lex_ind, lexLoop, dispatchBuilder, lastIsOp, lastIsNum, Builder.push,
      Builder.can_insert, Builder.into_token, Operator.from_char, Operator.is_operator,
      isLowerOrUnderscore, partAt, rustParseF64, takeDigits, digitsVal, parseExpPart,
      Token.is_op, Token.is_neg, Token.is_num, LexError.is_eof, checked_sub]
  · simp +decide [lex, lex_ind, lexLoop, dispatchBuilder, lastIsOp, lastIsNum, Builder.push,
      Builder.can_insert, Builder.into_token, Operator.from_char, Operator.is_operator,
      isLowerOrUnderscore, partAt, rustParseF64, takeDigits, digitsVal, parseExpPart,
      Token.is_op, Token.is_neg, Token.is_num, LexError.is_eof, checked_sub]

/-- Witness for C10's general conjunct at the builder state of `3E-`. -/
theorem C10_dangling_exponent_witness :
    Builder.into_token 0 (.NumberB ['3'] [] ['-'] 2) = .error .UnexpectedEOF :=
  C10_dangling_exponent.1 ['3'] [] ['-'] 0 (by decide) (by decide) (by simp)

end Calculator
